import Mathlib

/-!
Verification of the IBES forecast preprocessing pipeline
(`src/preprocessing/pipeline.py`).

The pipeline is a chain of pandas DataFrame transformations:
`preprocessing_ibes` → `calculate_pmafe` → `collapse_processed_df` →
`analyst_experience` → `brokerage` → `sic_codes` → `coverage` → `surprise`.

Embedding conventions:
* A DataFrame is a `List` of row structures; each pipeline stage is a function
  between row-structure lists.  Stages that read auxiliary parquet files
  (`analyst_experience`, `sic_codes`) take the auxiliary table as a parameter.
* Identifier-valued columns (`ticker`, `analys`, `estimator`, …) are `Nat`,
  dates are a calendar-date structure, numeric EPS columns are `ℚ`.
* Float columns that can hold the IEEE sentinels produced by division
  (`pmafe`, `surprise`, `surprise_lag`) are modelled by `FVal`, a rational
  extended with `+inf`, `-inf` and `NaN`; `fdiv` follows the IEEE rule for
  division of a finite numerator by zero, and `dropna` drops exactly the
  `NaN` rows (pandas `dropna` does not treat infinities as missing).
* `groupby(k).transform(f)` becomes: map each row to `f` of the rows sharing
  its key.  A left merge with a one-row-per-key aggregate followed by a
  `dropna` on the merged column becomes a `flatMap` over the matching
  aggregate rows (an unmatched row yields the empty list, exactly the rows
  the `dropna` removes).
* `groupby` group order in pandas is sorted by key; no claim depends on the
  order in which the collapsed groups are emitted, and the embedding emits
  them in order of first occurrence of the key.
-/

/-- Calendar date (pandas `Timestamp` at day resolution): the pipeline only
ever extracts the year (`dt.year`) and subtracts dates (`Timedelta` days). -/
structure Date where
  y : Int
  m : Int
  d : Int
deriving DecidableEq

/-- Day number of a civil date (Howard Hinnant's `days_from_civil`).
`fpedats - anndats` in pandas is the difference of such day numbers.
For the common-era dates that occur in forecast data every quotient taken
here is of non-negative operands, where Lean's integer division agrees with
the C-style division the algorithm was written for. -/
def Date.toDays (t : Date) : Int :=
  let y := if t.m ≤ 2 then t.y - 1 else t.y
  let era := (if 0 ≤ y then y else y - 399) / 400
  let yoe := y - era * 400
  let mp := (t.m + 9) % 12
  let doy := (153 * mp + 2) / 5 + t.d - 1
  let doe := yoe * 365 + yoe / 4 - yoe / 100 + doy
  era * 146097 + doe - 719468

/-- A float value as it matters to this pipeline: a finite (exact) rational,
one of the two infinities, or NaN. -/
inductive FVal where
  | fin : ℚ → FVal
  | pinf : FVal
  | ninf : FVal
  | nan : FVal
deriving DecidableEq

/-- IEEE division of a finite numerator by a finite denominator:
`0/0 = NaN`, `x/0 = ±inf` for `x ≠ 0`, finite otherwise.  NumPy warns on the
zero-denominator cases but never raises, so division by zero cannot abort
the pipeline. -/
def fdiv (num den : ℚ) : FVal :=
  if den = 0 then
    if num = 0 then FVal.nan
    else if 0 < num then FVal.pinf else FVal.ninf
  else FVal.fin (num / den)

/-- What `dropna` treats as missing: `NaN` only.  Infinities are kept
(pandas default `use_inf_as_na = False`). -/
def FVal.isna : FVal → Bool
  | FVal.nan => true
  | _ => false

/-- Mean of a list of rationals (`Series.mean` over a group). -/
def listMeanQ (xs : List ℚ) : ℚ := xs.sum / (xs.length : ℚ)

/-- Deduplication keeping the first occurrence of each element, in order of
first occurrence (the distinct group keys of a `groupby`). -/
def firstDedup {α : Type} [DecidableEq α] : List α → List α
  | [] => []
  | a :: l => a :: (firstDedup l).filter (fun b => b ≠ a)

/-- Last element of a list, if any. -/
def lastOf {α : Type} : List α → Option α
  | [] => none
  | [a] => some a
  | _ :: b :: l => lastOf (b :: l)

/-! ## Row schemas

One structure per pipeline stage; each stage's structure extends its
predecessor's with the columns the stage adds.  Column names follow the
DataFrame columns after the rename in `preprocessing_ibes`. -/

/-- A raw IBES forecast record, before any preprocessing.  `value` (estimated
EPS) and `actual` (realized EPS) are nullable floats; `fpi`, `measure` and
`cusip` are dropped unused by the first stage and `oftic`/`cname` are carried
along opaquely, so all are plain identifiers here. -/
structure RawRow where
  ticker : Nat
  oftic : Nat
  cname : Nat
  analys : Nat
  estimator : Nat
  fpi : Nat
  measure : Nat
  cusip : Nat
  value : Option ℚ
  actual : Option ℚ
  fpedats : Date
  revdats : Date
  anndats : Date
  anndats_act : Date
deriving DecidableEq

/-- A cleaned forecast record: output schema of `preprocessing_ibes` after the
column rename. -/
structure CleanRow where
  ibes_ticker_pk : Nat
  official_ticker : Nat
  company_name : Nat
  analyst : Nat
  estimator : Nat
  estimated_eps : ℚ
  actual_eps : ℚ
  fiscal_period_ending : Date
  revision_date : Date
  announce_date : Date
  announce_date_actual : Date
  forecast_announce_year : Int
  fiscal_year : Int
  forecast_horizon : Int
  mean_forecast_horizon_days : Int
deriving DecidableEq

/-- Output schema of `calculate_pmafe`. -/
structure PmafeRow extends CleanRow where
  afe_analyst_i : ℚ
  afe_analyst_ijt_mean : ℚ
  afe_firm_jt_mean : ℚ
  pmafe : FVal
deriving DecidableEq

/-- Output schema of `collapse_processed_df`. -/
structure CollapsedRow extends PmafeRow where
  mean_estimate_ijt : ℚ
deriving DecidableEq

/-- Output schema of `analyst_experience` (the `experience` column after its
rename; the derived log column is the function
`general_analyst_experience_log` of this column). -/
structure ExperRow extends CollapsedRow where
  general_analyst_experience : ℚ
deriving DecidableEq

/-- Output schema of `brokerage`. -/
structure BrokRow extends ExperRow where
  broker_size : Nat
  top_10 : Nat
deriving DecidableEq

/-- Output schema of `sic_codes`. -/
structure SicRow extends BrokRow where
  sic : Nat
deriving DecidableEq

/-- Output schema of `coverage`. -/
structure CovRow extends SicRow where
  broker_coverage : Nat
  analyst_portfolio_company_complexity_it : Nat
  analyst_following_jt : Nat
  analyst_portfolio_industry_complexity_it : Nat
deriving DecidableEq

/-- Output schema of `surprise` (the final panel). -/
structure SurRow extends CovRow where
  surprise : FVal
  surprise_lag : FVal
deriving DecidableEq

/-- A record of the analyst-experience auxiliary table
(`data/processed/analyst_experience.parquet`). -/
structure ExperienceRecord where
  analyst : Nat
  year : Int
  experience : ℚ
deriving DecidableEq

/-- A record of the SIC linking auxiliary table
(`data/processed/sic_linking_table.parquet`). -/
structure SicLinkingRecord where
  ticker : Nat
  sic : Nat
deriving DecidableEq

/-! ## Stage 1: `preprocessing_ibes` -/

/-- The `forecast_horizon` column before the rename:
`df['fpedats'] - df['anndats']`, in days. -/
def forecast_horizon_days (r : RawRow) : Int := r.fpedats.toDays - r.anndats.toDays

/-- `preprocessing_ibes` (pipeline.py lines 40–97): drop rows with missing
`actual` or `value`, derive the year and horizon columns, keep horizons
strictly between 30 and 365 days, attach the per-(analyst, ticker, fpedats)
mean horizon (computed before the 2023 filter, on the horizon-filtered
table), drop fiscal year 2023, and rename to the canonical schema.
The `filterMap` pattern-match is total on the surviving rows because the two
`dropna` calls removed every `none`. -/
def preprocessing_ibes (df : List RawRow) : List CleanRow :=
  let df1 := ((df.filter (fun r => r.actual.isSome)).filter (fun r => r.value.isSome)).filter
    (fun r => 30 < forecast_horizon_days r ∧ forecast_horizon_days r < 365)
  let df2 := df1.filter (fun r => r.fpedats.y ≠ 2023)
  df2.filterMap (fun r =>
    match r.value, r.actual with
    | some v, some a =>
      some { ibes_ticker_pk := r.ticker, official_ticker := r.oftic,
             company_name := r.cname, analyst := r.analys, estimator := r.estimator,
             estimated_eps := v, actual_eps := a,
             fiscal_period_ending := r.fpedats, revision_date := r.revdats,
             announce_date := r.anndats, announce_date_actual := r.anndats_act,
             forecast_announce_year := r.anndats.y, fiscal_year := r.fpedats.y,
             forecast_horizon := forecast_horizon_days r,
             mean_forecast_horizon_days :=
               ⌊listMeanQ ((df1.filter (fun s =>
                   s.analys = r.analys ∧ s.ticker = r.ticker ∧ s.fpedats = r.fpedats)).map
                 (fun s => (forecast_horizon_days s : ℚ)))⌋ }
    | _, _ => none)

/-! ## Stage 2: `calculate_pmafe` -/

/-- `afe_analyst_i = |estimated_eps - actual_eps|` (line 126). -/
def afe_of (r : CleanRow) : ℚ := |r.estimated_eps - r.actual_eps|

/-- `afe_analyst_ijt_mean`: mean of `afe_analyst_i` over the rows sharing the
row's (`ibes_ticker_pk`, `analyst`, `fiscal_period_ending`).  In the source
this is a `groupby`/`agg` producing one row per key, merged back with a left
join; since the aggregate has exactly one row per key and every left row's
key occurs in it, the merge attaches exactly this group mean to each row. -/
def afe_ijt_mean (df : List CleanRow) (r : CleanRow) : ℚ :=
  listMeanQ ((df.filter (fun s =>
    s.ibes_ticker_pk = r.ibes_ticker_pk ∧ s.analyst = r.analyst ∧
      s.fiscal_period_ending = r.fiscal_period_ending)).map afe_of)

/-- `afe_firm_jt_mean`: `transform('mean')` of `afe_analyst_i` over
(`ibes_ticker_pk`, `fiscal_period_ending`) (line 133). -/
def afe_jt_mean (df : List CleanRow) (r : CleanRow) : ℚ :=
  listMeanQ ((df.filter (fun s =>
    s.ibes_ticker_pk = r.ibes_ticker_pk ∧
      s.fiscal_period_ending = r.fiscal_period_ending)).map afe_of)

/-- `calculate_pmafe` (lines 102–140): attach the error columns, compute
`pmafe = (afe_analyst_ijt_mean - afe_firm_jt_mean) / afe_firm_jt_mean` in
float arithmetic, and `dropna` the `pmafe` column. -/
def calculate_pmafe (df : List CleanRow) : List PmafeRow :=
  (df.map (fun r =>
    ({ toCleanRow := r, afe_analyst_i := afe_of r,
       afe_analyst_ijt_mean := afe_ijt_mean df r,
       afe_firm_jt_mean := afe_jt_mean df r,
       pmafe := fdiv (afe_ijt_mean df r - afe_jt_mean df r) (afe_jt_mean df r) }
      : PmafeRow))).filter (fun r => !r.pmafe.isna)

/-! ## Stage 3: `collapse_processed_df` -/

/-- `mean_estimate_ijt`: `transform('mean')` of `estimated_eps` over
(`analyst`, `ibes_ticker_pk`, `fiscal_year`) (line 163), attached to every
row before the collapse. -/
def mean_estimate_ijt_of (df : List PmafeRow) (r : PmafeRow) : ℚ :=
  listMeanQ ((df.filter (fun s =>
    s.analyst = r.analyst ∧ s.ibes_ticker_pk = r.ibes_ticker_pk ∧
      s.fiscal_year = r.fiscal_year)).map (fun s => s.estimated_eps))

/-- The collapse grain: (`ibes_ticker_pk`, `analyst`, `fiscal_period_ending`),
the `groupby` key of line 166. -/
def grain_key (r : PmafeRow) : Nat × Nat × Date :=
  (r.ibes_ticker_pk, r.analyst, r.fiscal_period_ending)

/-- `idxmin` on `forecast_horizon` within one group: the first row (in table
order) attaining the minimal horizon, `none` on the empty list. -/
def idxmin_horizon : List PmafeRow → Option PmafeRow
  | [] => none
  | r :: rs =>
    match idxmin_horizon rs with
    | none => some r
    | some m => if r.forecast_horizon ≤ m.forecast_horizon then some r else some m

/-- `collapse_processed_df` (lines 144–169): attach `mean_estimate_ijt`, then
keep per (`ibes_ticker_pk`, `analyst`, `fiscal_period_ending`) group the
`idxmin`-selected row of minimal `forecast_horizon`. -/
def collapse_processed_df (df : List PmafeRow) : List CollapsedRow :=
  (firstDedup (df.map grain_key)).filterMap (fun k =>
    (idxmin_horizon (df.filter (fun r => grain_key r = k))).map
      (fun m => ({ toPmafeRow := m, mean_estimate_ijt := mean_estimate_ijt_of df m }
        : CollapsedRow)))

/-! ## Stage 4: `analyst_experience` -/

/-- `analyst_experience` (lines 173–196): left-join the experience table on
(`analyst`, `forecast_announce_year`) = (`analyst`, `year`), then
`dropna` on the (renamed) experience column.  A row without a match gets
null experience and is removed by the `dropna`, so the composition is the
`flatMap` over matching experience records. -/
def analyst_experience (experience_table : List ExperienceRecord)
    (df : List CollapsedRow) : List ExperRow :=
  df.flatMap (fun r =>
    (experience_table.filter (fun e =>
      e.analyst = r.analyst ∧ e.year = r.forecast_announce_year)).map
      (fun e => ({ toCollapsedRow := r, general_analyst_experience := e.experience }
        : ExperRow)))

/-- The derived log column of line 191,
`lambda x: np.log(x) if x != 0 else 0`, as a function of the
`general_analyst_experience` column. -/
noncomputable def general_analyst_experience_log (x : ℚ) : ℝ :=
  if x = 0 then 0 else Real.log (x : ℝ)

/-! ## Stage 5: `brokerage` -/

/-- `broker_size`: `transform('nunique')` of `analyst` over
(`fiscal_year`, `estimator`) (line 209). -/
def broker_size_of (df : List ExperRow) (r : ExperRow) : Nat :=
  ((df.filter (fun s => s.fiscal_year = r.fiscal_year ∧ s.estimator = r.estimator)).map
    (fun s => s.analyst)).dedup.length

/-- `Series.quantile(0.90)` with the default linear interpolation: with the
values sorted ascending and `h = (n-1) * 0.9`, the result is
`x⟦⌊h⌋⟧ + (h - ⌊h⌋) * (x⟦⌊h⌋+1⟧ - x⟦⌊h⌋⟧)`. -/
def quantile90 (xs : List ℚ) : ℚ :=
  let s := List.insertionSort (fun a b : ℚ => a ≤ b) xs
  let h : ℚ := ((s.length : ℚ) - 1) * (9 / 10)
  let lo : Nat := (⌊h⌋).toNat
  let frac : ℚ := h - (lo : ℚ)
  let xlo := s.getD lo 0
  xlo + frac * (s.getD (lo + 1) xlo - xlo)

/-- `brokerage` (lines 199–213): attach the `broker_size` column, compute the
per-`fiscal_year` 90th percentile of that column, and set
`top_10 = 1` iff the row's `broker_size` strictly exceeds its year's
threshold (`np.where(broker_size > year_threshold, 1, 0)`). -/
def brokerage (df : List ExperRow) : List BrokRow :=
  let sized := df.map (fun r =>
    ({ toExperRow := r, broker_size := broker_size_of df r, top_10 := 0 } : BrokRow))
  sized.map (fun r =>
    let threshold := quantile90 ((sized.filter (fun s => s.fiscal_year = r.fiscal_year)).map
      (fun s => (s.broker_size : ℚ)))
    { r with top_10 := if (r.broker_size : ℚ) > threshold then 1 else 0 })

/-! ## Stage 6: `sic_codes` -/

/-- `sic_codes` (lines 216–239): left-join the linking table on
`ibes_ticker_pk` = `ticker`, then `dropna` on `sic`; as with
`analyst_experience` this is the `flatMap` over matching linking records. -/
def sic_codes (linking_table : List SicLinkingRecord) (df : List BrokRow) : List SicRow :=
  df.flatMap (fun r =>
    (linking_table.filter (fun e => e.ticker = r.ibes_ticker_pk)).map
      (fun e => ({ toBrokRow := r, sic := e.sic } : SicRow)))

/-! ## Stage 7: `coverage` -/

/-- `coverage` (lines 242–269): four pure column additions, each a group
`count` (group size) or `nunique` (distinct count) broadcast back to the
rows. -/
def coverage (df : List SicRow) : List CovRow :=
  df.map (fun r =>
    { toSicRow := r,
      broker_coverage := (df.filter (fun s =>
        s.ibes_ticker_pk = r.ibes_ticker_pk ∧
          s.fiscal_period_ending = r.fiscal_period_ending ∧
          s.estimator = r.estimator)).length,
      analyst_portfolio_company_complexity_it := ((df.filter (fun s =>
        s.analyst = r.analyst ∧ s.fiscal_year = r.fiscal_year)).map
          (fun s => s.ibes_ticker_pk)).dedup.length,
      analyst_following_jt := (df.filter (fun s =>
        s.ibes_ticker_pk = r.ibes_ticker_pk ∧
          s.fiscal_period_ending = r.fiscal_period_ending)).length,
      analyst_portfolio_industry_complexity_it := ((df.filter (fun s =>
        s.analyst = r.analyst ∧ s.fiscal_year = r.fiscal_year)).map
          (fun s => s.sic)).dedup.length })

/-! ## Stage 8: `surprise` -/

/-- The `surprise` column (line 298):
`(actual_eps - mean_estimate_ijt) / mean_estimate_ijt` in float
arithmetic. -/
def surprise_of (r : CovRow) : FVal :=
  fdiv (r.actual_eps - r.mean_estimate_ijt) r.mean_estimate_ijt

/-- The `sort_values(by=['analyst', 'ibes_ticker_pk', 'fiscal_year'])` order
of line 299, on index-row pairs: lexicographic on the three columns. -/
def entryLe (a b : Nat × CovRow) : Prop :=
  a.2.analyst < b.2.analyst ∨
    (a.2.analyst = b.2.analyst ∧
      (a.2.ibes_ticker_pk < b.2.ibes_ticker_pk ∨
        (a.2.ibes_ticker_pk = b.2.ibes_ticker_pk ∧ a.2.fiscal_year ≤ b.2.fiscal_year)))

instance : DecidableRel entryLe := fun a b => by unfold entryLe; infer_instance

/-- The `groupby(['analyst', 'ibes_ticker_pk'])` key of the lag and rank
computations: two rows of the same analyst-firm series. -/
def sameSeries (a b : CovRow) : Prop :=
  a.analyst = b.analyst ∧ a.ibes_ticker_pk = b.ibes_ticker_pk

instance : ∀ a b, Decidable (sameSeries a b) := fun a b => by
  unfold sameSeries; infer_instance

/-- The rows of a DataFrame with their index labels.  At this point of the
pipeline the index is the fresh `RangeIndex` produced by the `sic_codes`
merge, so the labels are the positions `0, 1, 2, …`. -/
def indexRows : Nat → List CovRow → List (Nat × CovRow)
  | _, [] => []
  | i, r :: rs => (i, r) :: indexRows (i + 1) rs

/-- The predecessor a `groupby(...).shift(1)` on the sorted table assigns to
entry `e`: the last entry of `e`'s analyst-firm series among the entries
strictly before `e` (identified by its index label) in the sorted table, if
any. -/
def prev_in_series (sorted : List (Nat × CovRow)) (e : Nat × CovRow) :
    Option (Nat × CovRow) :=
  lastOf ((sorted.takeWhile (fun x => x.1 ≠ e.1)).filter (fun x => sameSeries x.2 e.2))

/-- The `rank` column (line 302): `rank(method="min")` of `fiscal_year`
within the analyst-firm series, i.e. one more than the number of series rows
with a strictly smaller `fiscal_year`. -/
def rank_min (df : List CovRow) (r : CovRow) : Nat :=
  1 + ((df.filter (fun s => sameSeries s r)).filter
    (fun s => s.fiscal_year < r.fiscal_year)).length

/-- One output row of the surprise stage, before the `dropna` calls: the
input row with its `surprise` value, and `surprise_lag` taken from the
one-period shift of `surprise` within the row's analyst-firm series of the
sorted table (NaN when the shift has no predecessor), overwritten with `0`
when the row's `rank` is 1. -/
def surprise_row (df : List CovRow) (e : Nat × CovRow) : SurRow :=
  let shifted : FVal :=
    match prev_in_series (List.insertionSort entryLe (indexRows 0 df)) e with
    | some p => surprise_of p.2
    | none => FVal.nan
  { toCovRow := e.2, surprise := surprise_of e.2,
    surprise_lag := if rank_min df e.2 = 1 then FVal.fin 0 else shifted }

/-- `surprise` (lines 272–310): compute the `surprise` column, assign
`surprise_lag` from the one-period shift of `surprise` within each
analyst-firm series of the table sorted by (`analyst`, `ibes_ticker_pk`,
`fiscal_year`) (aligned back to the unsorted table by index label, so row
order is unchanged), overwrite `surprise_lag` with `0` on every row of
`rank` 1, and finally `dropna` on `surprise` and then on `surprise_lag`. -/
def surprise (df : List CovRow) : List SurRow :=
  ((((indexRows 0 df).map (surprise_row df)).filter (fun r => !r.surprise.isna)).filter
    (fun r => !r.surprise_lag.isna))

/-! ## Grain keys of the post-collapse stages (claim C1) -/

/-- Grain key of a collapsed row. -/
def gkeyC (r : CollapsedRow) : Nat × Nat × Date :=
  (r.ibes_ticker_pk, r.analyst, r.fiscal_period_ending)

/-- Grain key of an experience-enriched row. -/
def gkeyE (r : ExperRow) : Nat × Nat × Date :=
  (r.ibes_ticker_pk, r.analyst, r.fiscal_period_ending)

/-- Grain key of a brokerage-enriched row. -/
def gkeyB (r : BrokRow) : Nat × Nat × Date :=
  (r.ibes_ticker_pk, r.analyst, r.fiscal_period_ending)

/-- Grain key of a SIC-enriched row. -/
def gkeyS (r : SicRow) : Nat × Nat × Date :=
  (r.ibes_ticker_pk, r.analyst, r.fiscal_period_ending)

/-- Grain key of a coverage-enriched row. -/
def gkeyV (r : CovRow) : Nat × Nat × Date :=
  (r.ibes_ticker_pk, r.analyst, r.fiscal_period_ending)

/-- Grain key of a final-panel row. -/
def gkeyU (r : SurRow) : Nat × Nat × Date :=
  (r.ibes_ticker_pk, r.analyst, r.fiscal_period_ending)

/-! ## Concrete tables used by the witnesses and counterexamples -/

/-- Shorthand for a calendar date. -/
def mkDate (y m dd : Int) : Date := ⟨y, m, dd⟩

/-- The spec's end-to-end example: analyst 1 forecasts firm 10's 2020-12-31
period twice (estimates 1.0 at 60 days and 1.2 at 40 days, actual 1.1), and
analyst 2 forecasts it once (estimate 1.4, so absolute error 0.3). -/
def rawExample : List RawRow :=
  [ { ticker := 10, oftic := 10, cname := 10, analys := 1, estimator := 100,
      fpi := 0, measure := 0, cusip := 0,
      value := some 1, actual := some (11/10),
      fpedats := mkDate 2020 12 31, revdats := mkDate 2020 11 1,
      anndats := mkDate 2020 11 1, anndats_act := mkDate 2021 2 1 },
    { ticker := 10, oftic := 10, cname := 10, analys := 1, estimator := 100,
      fpi := 0, measure := 0, cusip := 0,
      value := some (12/10), actual := some (11/10),
      fpedats := mkDate 2020 12 31, revdats := mkDate 2020 11 21,
      anndats := mkDate 2020 11 21, anndats_act := mkDate 2021 2 1 },
    { ticker := 10, oftic := 10, cname := 10, analys := 2, estimator := 200,
      fpi := 0, measure := 0, cusip := 0,
      value := some (14/10), actual := some (11/10),
      fpedats := mkDate 2020 12 31, revdats := mkDate 2020 9 22,
      anndats := mkDate 2020 9 22, anndats_act := mkDate 2021 2 1 } ]

/-- A single raw forecast whose estimate is exactly 0 while the realized EPS
is 1.1: legal input (no nulls, valid horizon), but the analyst's mean
estimate is then 0 and the surprise division hits a zero denominator with a
non-zero numerator. -/
def rawZeroEstimate : List RawRow :=
  [ { ticker := 10, oftic := 10, cname := 10, analys := 1, estimator := 100,
      fpi := 0, measure := 0, cusip := 0,
      value := some 0, actual := some (11/10),
      fpedats := mkDate 2020 12 31, revdats := mkDate 2020 11 1,
      anndats := mkDate 2020 11 1, anndats_act := mkDate 2021 2 1 } ]

/-- Experience table matching analyst 1 in announce year 2020. -/
def expTableZ : List ExperienceRecord := [ { analyst := 1, year := 2020, experience := 5 } ]

/-- Linking table matching ticker 10. -/
def linkTableZ : List SicLinkingRecord := [ { ticker := 10, sic := 7357 } ]

/-- The full pipeline applied to `rawZeroEstimate` with the two auxiliary
tables above; this is the final panel that gets written to parquet. -/
def finalZeroEstimate : List SurRow :=
  surprise (coverage (sic_codes linkTableZ (brokerage (analyst_experience expTableZ
    (collapse_processed_df (calculate_pmafe (preprocessing_ibes rawZeroEstimate)))))))

/-- Experience table with two records for analyst 1 (years 2019 and 2020). -/
def expTableW : List ExperienceRecord :=
  [ { analyst := 1, year := 2019, experience := 4 },
    { analyst := 1, year := 2020, experience := 5 } ]

/-- The cleaned form of the first example row (analyst 1, estimate 1.0,
60-day horizon on firm 10's 2020-12-31 period, actual 1.1). -/
def cleanRow1 : CleanRow :=
  { ibes_ticker_pk := 10, official_ticker := 10, company_name := 10, analyst := 1,
    estimator := 100, estimated_eps := 1, actual_eps := 11/10,
    fiscal_period_ending := mkDate 2020 12 31, revision_date := mkDate 2020 11 1,
    announce_date := mkDate 2020 11 1, announce_date_actual := mkDate 2021 2 1,
    forecast_announce_year := 2020, fiscal_year := 2020, forecast_horizon := 60,
    mean_forecast_horizon_days := 50 }

/-- The cleaned form of the second example row (analyst 1, estimate 1.2,
40-day horizon). -/
def cleanRow2 : CleanRow :=
  { ibes_ticker_pk := 10, official_ticker := 10, company_name := 10, analyst := 1,
    estimator := 100, estimated_eps := 12/10, actual_eps := 11/10,
    fiscal_period_ending := mkDate 2020 12 31, revision_date := mkDate 2020 11 21,
    announce_date := mkDate 2020 11 21, announce_date_actual := mkDate 2021 2 1,
    forecast_announce_year := 2020, fiscal_year := 2020, forecast_horizon := 40,
    mean_forecast_horizon_days := 50 }

/-- The cleaned form of the third example row (analyst 2, estimate 1.4,
100-day horizon). -/
def cleanRow3 : CleanRow :=
  { ibes_ticker_pk := 10, official_ticker := 10, company_name := 10, analyst := 2,
    estimator := 200, estimated_eps := 14/10, actual_eps := 11/10,
    fiscal_period_ending := mkDate 2020 12 31, revision_date := mkDate 2020 9 22,
    announce_date := mkDate 2020 9 22, announce_date_actual := mkDate 2021 2 1,
    forecast_announce_year := 2020, fiscal_year := 2020, forecast_horizon := 100,
    mean_forecast_horizon_days := 100 }

/-- A concrete cleaned three-row table (the PMAFE stage's input). -/
def cleanExample : List CleanRow := [cleanRow1, cleanRow2, cleanRow3]

/-- `cleanRow1` with its error aggregates attached. -/
def pmafeRow1 : PmafeRow :=
  { toCleanRow := cleanRow1, afe_analyst_i := 1/10, afe_analyst_ijt_mean := 1/10,
    afe_firm_jt_mean := 1/6, pmafe := FVal.fin (-2/5) }

/-- `cleanRow2` with its error aggregates attached. -/
def pmafeRow2 : PmafeRow :=
  { toCleanRow := cleanRow2, afe_analyst_i := 1/10, afe_analyst_ijt_mean := 1/10,
    afe_firm_jt_mean := 1/6, pmafe := FVal.fin (-2/5) }

/-- `cleanRow3` with its error aggregates attached. -/
def pmafeRow3 : PmafeRow :=
  { toCleanRow := cleanRow3, afe_analyst_i := 3/10, afe_analyst_ijt_mean := 3/10,
    afe_firm_jt_mean := 1/6, pmafe := FVal.fin (4/5) }

/-- A concrete three-row PMAFE-stage table (the collapse stage's input). -/
def pmafeExampleTable : List PmafeRow := [pmafeRow1, pmafeRow2, pmafeRow3]

/-- The collapsed row of analyst 1 (the 40-day revision carries the mean). -/
def collapsedRowA : CollapsedRow :=
  { toPmafeRow := pmafeRow2, mean_estimate_ijt := 11/10 }

/-- The collapsed row of analyst 2. -/
def collapsedRowB : CollapsedRow :=
  { toPmafeRow := pmafeRow3, mean_estimate_ijt := 14/10 }

/-- A concrete collapsed table (the experience enrichment's input); only
analyst 1 has experience records in `expTableW`, so the enrichment drops the
analyst-2 row. -/
def collapsedExampleTable : List CollapsedRow := [collapsedRowA, collapsedRowB]

/-- A concrete experience-enriched table (the brokerage stage's input). -/
def experExampleTable : List ExperRow :=
  [ { toCollapsedRow := collapsedRowA, general_analyst_experience := 5 },
    { toCollapsedRow := collapsedRowB, general_analyst_experience := 7 } ]

/-- A coverage-stage row with the fields the surprise stage reads (analyst,
ticker, fiscal year, actual EPS, mean estimate) set explicitly and the
remaining columns filled with placeholder values. -/
def mkCovRow (a tk : Nat) (fpe : Date) (fy : Int) (act meanest : ℚ) : CovRow :=
  { toSicRow :=
    { toBrokRow :=
      { toExperRow :=
        { toCollapsedRow :=
          { toPmafeRow :=
            { toCleanRow :=
              { ibes_ticker_pk := tk, official_ticker := tk, company_name := tk,
                analyst := a, estimator := 100, estimated_eps := meanest,
                actual_eps := act, fiscal_period_ending := fpe, revision_date := fpe,
                announce_date := fpe, announce_date_actual := fpe,
                forecast_announce_year := fy, fiscal_year := fy, forecast_horizon := 60,
                mean_forecast_horizon_days := 60 },
              afe_analyst_i := |meanest - act|, afe_analyst_ijt_mean := |meanest - act|,
              afe_firm_jt_mean := |meanest - act|, pmafe := FVal.fin 0 },
            mean_estimate_ijt := meanest },
          general_analyst_experience := 5 },
        broker_size := 1, top_10 := 0 },
      sic := 7357 },
    broker_coverage := 1, analyst_portfolio_company_complexity_it := 1,
    analyst_following_jt := 1, analyst_portfolio_industry_complexity_it := 1 }

/-- A two-year analyst-firm series at the surprise stage: analyst 1 on firm
10, fiscal years 2019 (mean estimate 2) and 2020 (mean estimate 3), actual
EPS 1 in both. -/
def covSeries : List CovRow :=
  [ mkCovRow 1 10 (mkDate 2019 12 31) 2019 1 2,
    mkCovRow 1 10 (mkDate 2020 12 31) 2020 1 3 ]

/-- A tied series at the surprise stage: two different fiscal periods of the
same analyst-firm pair ending in the same calendar year 2020, so both rows
share the minimal fiscal year of the series. -/
def covTied : List CovRow :=
  [ mkCovRow 1 10 (mkDate 2020 3 31) 2020 1 2,
    mkCovRow 1 10 (mkDate 2020 6 30) 2020 1 3 ]

/-- Placeholder date for default rows. -/
def epochDate : Date := ⟨1970, 1, 1⟩

/-- Default cleaned row (used only as the `headD` fallback in witnesses). -/
def defaultCleanRow : CleanRow :=
  { ibes_ticker_pk := 0, official_ticker := 0, company_name := 0, analyst := 0,
    estimator := 0, estimated_eps := 0, actual_eps := 0,
    fiscal_period_ending := epochDate, revision_date := epochDate,
    announce_date := epochDate, announce_date_actual := epochDate,
    forecast_announce_year := 0, fiscal_year := 0, forecast_horizon := 0,
    mean_forecast_horizon_days := 0 }

/-- Default PMAFE row. -/
def defaultPmafeRow : PmafeRow :=
  { toCleanRow := defaultCleanRow, afe_analyst_i := 0, afe_analyst_ijt_mean := 0,
    afe_firm_jt_mean := 0, pmafe := FVal.nan }

/-- Default collapsed row. -/
def defaultCollapsedRow : CollapsedRow :=
  { toPmafeRow := defaultPmafeRow, mean_estimate_ijt := 0 }

/-- Default experience-enriched row. -/
def defaultExperRow : ExperRow :=
  { toCollapsedRow := defaultCollapsedRow, general_analyst_experience := 0 }

/-- Default brokerage-enriched row. -/
def defaultBrokRow : BrokRow :=
  { toExperRow := defaultExperRow, broker_size := 0, top_10 := 0 }

/-- Default final-panel row. -/
def defaultSurRow : SurRow :=
  { toCovRow := mkCovRow 0 0 epochDate 0 0 0, surprise := FVal.nan,
    surprise_lag := FVal.nan }

/-- Concrete PMAFE-stage row (first row the stage outputs on `cleanExample`). -/
def rowC2 : PmafeRow := (calculate_pmafe cleanExample).headD defaultPmafeRow

/-- Concrete PMAFE-stage row used by the drop-policy witness. -/
def rowC4 : PmafeRow := (calculate_pmafe cleanExample).headD defaultPmafeRow

/-- Concrete cleaned row (first row the cleaning stage outputs on
`rawExample`). -/
def rowC5 : CleanRow := (preprocessing_ibes rawExample).headD defaultCleanRow

/-- Concrete collapsed row. -/
def rowC6 : CollapsedRow := (collapse_processed_df pmafeExampleTable).headD defaultCollapsedRow

/-- Concrete final-panel row of the two-year series. -/
def rowC7 : SurRow := (surprise covSeries).headD defaultSurRow

/-- Concrete brokerage-enriched row. -/
def rowC8 : BrokRow := (brokerage experExampleTable).headD defaultBrokRow

/-- Concrete experience-enriched row. -/
def rowC9 : ExperRow := (analyst_experience expTableW collapsedExampleTable).headD defaultExperRow

/-- Concrete final-panel row of the tied series. -/
def rowC10 : SurRow := (surprise covTied).headD defaultSurRow

/-! ## General list lemmas -/

/-- A list of non-negative rationals with zero sum is all zeros. -/
lemma sum_eq_zero_of_nonneg {l : List ℚ} (h0 : ∀ x ∈ l, 0 ≤ x) (hs : l.sum = 0) :
    ∀ x ∈ l, x = 0 := by
  induction l with
  | nil => simp
  | cons a t ih =>
    have ha : 0 ≤ a := h0 a (by simp)
    have hts : 0 ≤ t.sum := List.sum_nonneg (fun x hx => h0 x (by simp [hx]))
    have hsum : a + t.sum = 0 := by simpa using hs
    intro x hx
    rcases List.mem_cons.mp hx with rfl | hx
    · linarith
    · exact ih (fun y hy => h0 y (by simp [hy])) (by linarith) x hx

/-- A non-empty list of non-negative rationals with zero mean is all zeros. -/
lemma listMeanQ_eq_zero {l : List ℚ} (h0 : ∀ x ∈ l, 0 ≤ x) (hm : listMeanQ l = 0) :
    ∀ x ∈ l, x = 0 := by
  cases l with
  | nil => simp
  | cons a t =>
    have hlen : (((a :: t).length : ℚ)) ≠ 0 := by
      simp [Nat.cast_add, Nat.cast_one]
      positivity
    have hsum : (a :: t).sum = 0 := by
      unfold listMeanQ at hm
      rcases div_eq_zero_iff.mp hm with h | h
      · exact h
      · exact absurd h hlen
    exact sum_eq_zero_of_nonneg h0 hsum

/-- Membership in `firstDedup` is membership in the original list. -/
lemma mem_firstDedup {α : Type} [DecidableEq α] {a : α} :
    ∀ {l : List α}, a ∈ firstDedup l ↔ a ∈ l := by
  intro l
  induction l with
  | nil => simp [firstDedup]
  | cons b t ih =>
    by_cases hab : a = b
    · subst hab; simp [firstDedup]
    · simp only [firstDedup, List.mem_cons, List.mem_filter, ih, decide_eq_true_eq]
      constructor
      · rintro (rfl | ⟨h, _⟩)
        · exact Or.inl rfl
        · exact Or.inr h
      · rintro (rfl | h)
        · exact Or.inl rfl
        · exact Or.inr ⟨h, hab⟩

/-- `firstDedup` has no duplicates. -/
lemma nodup_firstDedup {α : Type} [DecidableEq α] : ∀ (l : List α), (firstDedup l).Nodup := by
  intro l
  induction l with
  | nil => simp [firstDedup]
  | cons b t ih =>
    simp only [firstDedup]
    refine List.Nodup.cons ?_ (List.Nodup.filter _ ih)
    intro hb
    have := (List.mem_filter.mp hb).2
    simp at this

/-- `idxmin_horizon` returns `none` exactly on the empty group. -/
lemma idxmin_horizon_eq_none : ∀ {l : List PmafeRow}, idxmin_horizon l = none ↔ l = [] := by
  intro l
  cases l with
  | nil => simp [idxmin_horizon]
  | cons r rs =>
    simp only [idxmin_horizon]
    cases idxmin_horizon rs with
    | none => simp
    | some m => by_cases h : r.forecast_horizon ≤ m.forecast_horizon <;> simp [h]

/-- The row selected by `idxmin_horizon` belongs to the group, attains the
minimal horizon, and is the first row of the group attaining it. -/
lemma idxmin_horizon_spec : ∀ {l : List PmafeRow} {m : PmafeRow},
    idxmin_horizon l = some m →
      m ∈ l ∧ (∀ x ∈ l, m.forecast_horizon ≤ x.forecast_horizon) ∧
        l.find? (fun s => s.forecast_horizon = m.forecast_horizon) = some m := by
  intro l
  induction l with
  | nil => intro m h; simp [idxmin_horizon] at h
  | cons r rs ih =>
    intro m h
    simp only [idxmin_horizon] at h
    cases hrs : idxmin_horizon rs with
    | none =>
      simp only [hrs] at h
      have hnil : rs = [] := idxmin_horizon_eq_none.mp hrs
      subst hnil
      simp only [Option.some.injEq] at h
      subst h
      refine ⟨by simp, by simp, ?_⟩
      exact List.find?_cons_of_pos _ (by simp)
    | some m' =>
      simp only [hrs] at h
      rcases ih hrs with ⟨hmem, hmin, hfind⟩
      by_cases hle : r.forecast_horizon ≤ m'.forecast_horizon
      · rw [if_pos hle] at h
        simp only [Option.some.injEq] at h
        subst h
        refine ⟨by simp, ?_, ?_⟩
        · intro x hx
          rcases List.mem_cons.mp hx with rfl | hx
          · exact le_refl _
          · exact le_trans hle (hmin x hx)
        · exact List.find?_cons_of_pos _ (by simp)
      · rw [if_neg hle] at h
        simp only [Option.some.injEq] at h
        subst h
        refine ⟨by simp [hmem], ?_, ?_⟩
        · intro x hx
          rcases List.mem_cons.mp hx with rfl | hx
          · exact le_of_not_le hle
          · exact hmin x hx
        · rw [List.find?_cons_of_neg, hfind]
          simp only [decide_eq_true_eq]
          intro heq
          exact hle (le_of_eq heq)

/-- Keys with no duplicates, each mapped to at most one row carrying that
key, yield rows whose keys have no duplicates. -/
lemma nodup_map_filterMap_keys {β κ : Type} [DecidableEq κ] (keys : List κ)
    (f : κ → Option β) (g : β → κ)
    (hf : ∀ k b, f k = some b → g b = k) (hnd : keys.Nodup) :
    ((keys.filterMap f).map g).Nodup := by
  induction keys with
  | nil => simp
  | cons k t ih =>
    rcases List.nodup_cons.mp hnd with ⟨hk, ht⟩
    cases hfk : f k with
    | none => simpa [List.filterMap_cons, hfk] using ih ht
    | some b =>
      simp only [List.filterMap_cons, hfk, List.map_cons]
      refine List.Nodup.cons ?_ (ih ht)
      intro hmem
      rcases List.mem_map.mp hmem with ⟨b', hb', hgb⟩
      rcases List.mem_filterMap.mp hb' with ⟨k', hk', hfk'⟩
      have h1 : g b' = k' := hf k' b' hfk'
      have h2 : g b = k := hf k b hfk
      have hkk : k = k' := by rw [← h2, ← hgb, h1]
      exact hk (hkk ▸ hk')

/-- A list of length at most one has no duplicates. -/
lemma nodup_of_length_le_one {α : Type} : ∀ {l : List α}, l.length ≤ 1 → l.Nodup := by
  intro l
  match l with
  | [] => intro _; simp
  | [a] => intro _; simp
  | a :: b :: t => intro h; simp at h

/-- If no two rows of `l` both satisfy `p`, at most one row survives the
filter by `p`. -/
lemma length_filter_le_one {α : Type} (p : α → Bool) :
    ∀ {l : List α}, l.Pairwise (fun a b => ¬(p a = true ∧ p b = true)) →
      (l.filter p).length ≤ 1 := by
  intro l
  induction l with
  | nil => simp
  | cons a t ih =>
    intro h
    rcases List.pairwise_cons.mp h with ⟨ha, ht⟩
    by_cases hpa : p a = true
    · have hnil : t.filter p = [] := by
        rw [List.filter_eq_nil_iff]
        intro b hb hpb
        exact ha b hb ⟨hpa, hpb⟩
      simp [List.filter_cons, hpa, hnil]
    · simp only [List.filter_cons, hpa]
      simpa using ih ht

/-- `flatMap` by a function producing at most one row per input, preserving
a key, preserves key-uniqueness. -/
lemma nodup_map_flatMap {α β κ : Type} [DecidableEq κ] (l : List α)
    (f : α → List β) (g : α → κ) (g' : β → κ)
    (hkey : ∀ a, ∀ b ∈ f a, g' b = g a) (hlen : ∀ a, (f a).length ≤ 1)
    (hnd : (l.map g).Nodup) : ((l.flatMap f).map g').Nodup := by
  induction l with
  | nil => simp
  | cons a t ih =>
    rw [List.map_cons] at hnd
    rcases List.nodup_cons.mp hnd with ⟨ha, ht⟩
    simp only [List.flatMap_cons, List.map_append]
    refine List.Nodup.append ?_ (ih ht) ?_
    · exact nodup_of_length_le_one (by simpa using hlen a)
    · intro x hx1 hx2
      rcases List.mem_map.mp hx1 with ⟨b, hb, rfl⟩
      rcases List.mem_map.mp hx2 with ⟨b', hb', heq⟩
      rcases List.mem_flatMap.mp hb' with ⟨a', ha', hba'⟩
      have h1 : g' b = g a := hkey a b hb
      have h2 : g' b' = g a' := hkey a' b' hba'
      exact ha (List.mem_map.mpr ⟨a', ha', by rw [← h2, heq, h1]⟩)

/-- The default-valued head of a non-empty list is a member. -/
lemma headD_mem {α : Type} {l : List α} (h : l ≠ []) (d : α) : l.headD d ∈ l := by
  cases l with
  | nil => exact absurd rfl h
  | cons a t => simp [List.headD]

/-- The last element of a list is a member. -/
lemma lastOf_mem {α : Type} : ∀ {l : List α} {p : α}, lastOf l = some p → p ∈ l := by
  intro l
  match l with
  | [] => intro p h; simp [lastOf] at h
  | [a] => intro p h; simp [lastOf] at h; simp [h]
  | a :: b :: t =>
    intro p h
    rw [lastOf] at h
    exact List.mem_cons_of_mem a (lastOf_mem h)

/-- A non-empty list has a last element. -/
lemma lastOf_isSome {α : Type} : ∀ {l : List α}, l ≠ [] → ∃ p, lastOf l = some p := by
  intro l
  induction l with
  | nil => intro h; exact absurd rfl h
  | cons a t ih =>
    intro _
    cases t with
    | nil => exact ⟨a, rfl⟩
    | cons b u =>
      rcases ih (by simp) with ⟨p, hp⟩
      exact ⟨p, by rw [lastOf]; exact hp⟩

/-- In a list that is pairwise related by `R`, every element other than the
last is `R`-below the last. -/
lemma lastOf_pairwise {α : Type} {R : α → α → Prop} :
    ∀ {l : List α} {p : α}, l.Pairwise R → lastOf l = some p →
      ∀ x ∈ l, x = p ∨ R x p := by
  intro l
  match l with
  | [] => intro p _ h; simp [lastOf] at h
  | [a] =>
    intro p _ h x hx
    simp [lastOf] at h
    simp at hx
    subst h hx
    exact Or.inl rfl
  | a :: b :: t =>
    intro p hpw h x hx
    rw [lastOf] at h
    rcases List.pairwise_cons.mp hpw with ⟨ha, ht⟩
    rcases List.mem_cons.mp hx with rfl | hx
    · exact Or.inr (ha p (lastOf_mem h))
    · exact lastOf_pairwise ht h x hx

/-- `indexRows` tags each row of the table with an index and nothing else. -/
lemma indexRows_map_snd : ∀ (n : Nat) (l : List CovRow),
    (indexRows n l).map Prod.snd = l := by
  intro n l
  induction l generalizing n with
  | nil => simp [indexRows]
  | cons r rs ih => simp [indexRows, ih]

/-- The row part of an indexed entry is a row of the table. -/
lemma mem_indexRows {n : Nat} {l : List CovRow} {x : Nat × CovRow}
    (h : x ∈ indexRows n l) : x.2 ∈ l := by
  have : x.2 ∈ (indexRows n l).map Prod.snd := List.mem_map_of_mem Prod.snd h
  rwa [indexRows_map_snd] at this

/-- A pairwise property of the rows lifts to the indexed entries. -/
lemma indexRows_pairwise {P : CovRow → CovRow → Prop} :
    ∀ {l : List CovRow} (n : Nat), l.Pairwise P →
      (indexRows n l).Pairwise (fun a b => P a.2 b.2) := by
  intro l
  induction l with
  | nil => intro n _; simp [indexRows]
  | cons r rs ih =>
    intro n h
    rcases List.pairwise_cons.mp h with ⟨hr, hrs⟩
    rw [indexRows]
    refine List.pairwise_cons.mpr ⟨?_, ih (n + 1) hrs⟩
    intro x hx
    exact hr x.2 (mem_indexRows hx)

/-- Splitting a list at a member: if a predicate fails exactly at `e`, the
list is the `takeWhile` of the predicate followed by `e` and a tail. -/
lemma takeWhile_split_by {α : Type} (p : α → Bool) :
    ∀ {l : List α} {e : α}, e ∈ l → (∀ x ∈ l, p x = false ↔ x = e) →
      ∃ u, l = l.takeWhile p ++ e :: u := by
  intro l
  induction l with
  | nil => intro e h _; simp at h
  | cons a t ih =>
    intro e he hp
    by_cases hpa : p a = true
    · have hae : a ≠ e := by
        intro hae
        rw [(hp a (by simp)).mpr hae] at hpa
        simp at hpa
      rcases List.mem_cons.mp he with rfl | het
      · exact absurd rfl hae
      · rcases ih het (fun x hx => hp x (by simp [hx])) with ⟨u, hu⟩
        refine ⟨u, ?_⟩
        have hta : (a :: t).takeWhile p = a :: t.takeWhile p := by
          simp [List.takeWhile_cons, hpa]
        rw [hta, List.cons_append]
        exact congrArg (a :: ·) hu
    · have hae : a = e := (hp a (by simp)).mp (by simpa using hpa)
      subst hae
      refine ⟨t, ?_⟩
      have hta : (a :: t).takeWhile p = [] := by
        rw [List.takeWhile_cons]
        simpa using hpa
      rw [hta]
      simp

/-- The index labels attached by `indexRows` are consecutive numbers. -/
lemma indexRows_map_fst : ∀ (n : Nat) (l : List CovRow),
    (indexRows n l).map Prod.fst = List.range' n l.length := by
  intro n l
  induction l generalizing n with
  | nil => simp [indexRows]
  | cons r rs ih => simp [indexRows, List.range'_succ, ih]

/-! ## Pipeline-specific lemmas -/

instance : IsTrans (Nat × CovRow) entryLe := ⟨by
  intro a b c
  unfold entryLe
  omega⟩

instance : IsTotal (Nat × CovRow) entryLe := ⟨by
  intro a b
  unfold entryLe
  omega⟩

/-- `brokerage` adds columns without touching the grain key of any row. -/
lemma brokerage_map_gkey (df : List ExperRow) : (brokerage df).map gkeyB = df.map gkeyE := by
  unfold brokerage
  simp only [List.map_map]
  rfl

/-- `coverage` adds columns without touching the grain key of any row. -/
lemma coverage_map_gkey (df : List SicRow) : (coverage df).map gkeyV = df.map gkeyS := by
  unfold coverage
  simp only [List.map_map]
  rfl

/-- Characterization of a row surviving `calculate_pmafe`: it is an input row
decorated with the three error aggregates and a non-NaN `pmafe`. -/
lemma mem_calculate_pmafe {df : List CleanRow} {r : PmafeRow} (h : r ∈ calculate_pmafe df) :
    r.toCleanRow ∈ df ∧
      r.afe_analyst_ijt_mean = afe_ijt_mean df r.toCleanRow ∧
      r.afe_firm_jt_mean = afe_jt_mean df r.toCleanRow ∧
      r.pmafe = fdiv (afe_ijt_mean df r.toCleanRow - afe_jt_mean df r.toCleanRow)
        (afe_jt_mean df r.toCleanRow) ∧
      ¬r.pmafe.isna = true := by
  unfold calculate_pmafe at h
  rcases List.mem_filter.mp h with ⟨hm, hna⟩
  rcases List.mem_map.mp hm with ⟨r0, hr0, rfl⟩
  exact ⟨hr0, rfl, rfl, rfl, by simpa using hna⟩

/-- Mean of a list of zeros is zero. -/
lemma listMeanQ_all_zero {l : List ℚ} (h : ∀ x ∈ l, x = 0) : listMeanQ l = 0 := by
  unfold listMeanQ
  rw [List.sum_eq_zero h, zero_div]

/-- For a row kept by `calculate_pmafe`, the firm-period benchmark error is
non-zero: a zero benchmark forces a zero analyst mean too, which makes the
division produce NaN and the row get dropped. -/
lemma afe_jt_mean_ne_zero_of_kept {df : List CleanRow} {r : PmafeRow}
    (h : r ∈ calculate_pmafe df) : afe_jt_mean df r.toCleanRow ≠ 0 := by
  rcases mem_calculate_pmafe h with ⟨hmem, _, _, hpm, hna⟩
  intro hjt
  have hall : ∀ x ∈ (df.filter (fun s =>
      s.ibes_ticker_pk = r.ibes_ticker_pk ∧
        s.fiscal_period_ending = r.fiscal_period_ending)).map afe_of, x = 0 := by
    apply listMeanQ_eq_zero ?_ hjt
    intro x hx
    rcases List.mem_map.mp hx with ⟨s, _, rfl⟩
    exact abs_nonneg _
  have hijt : afe_ijt_mean df r.toCleanRow = 0 := by
    apply listMeanQ_all_zero
    intro x hx
    rcases List.mem_map.mp hx with ⟨s, hs, rfl⟩
    rcases List.mem_filter.mp hs with ⟨hsd, hsp⟩
    simp only [decide_eq_true_eq] at hsp
    refine hall (afe_of s) (List.mem_map.mpr ⟨s, ?_, rfl⟩)
    refine List.mem_filter.mpr ⟨hsd, ?_⟩
    simp only [decide_eq_true_eq]
    exact ⟨hsp.1, hsp.2.2⟩
  rw [hijt, hjt] at hpm
  simp only [fdiv, sub_zero, if_pos rfl] at hpm
  rw [hpm] at hna
  simp [FVal.isna] at hna

/-- Characterization of a row of the final panel: an input row of the
surprise stage decorated with its `surprise` and `surprise_lag` values, both
non-NaN. -/
lemma mem_surprise {df : List CovRow} {r : SurRow} (h : r ∈ surprise df) :
    ∃ e ∈ indexRows 0 df, r = surprise_row df e ∧
      ¬r.surprise.isna = true ∧ ¬r.surprise_lag.isna = true := by
  unfold surprise at h
  rcases List.mem_filter.mp h with ⟨h1, hlagna⟩
  rcases List.mem_filter.mp h1 with ⟨h2, hsna⟩
  rcases List.mem_map.mp h2 with ⟨e, he, hre⟩
  exact ⟨e, he, hre.symm, by simpa using hsna, by simpa using hlagna⟩

/-- Field values of a surprise-stage output row. -/
lemma surprise_row_fields (df : List CovRow) (e : Nat × CovRow) :
    (surprise_row df e).toCovRow = e.2 ∧
      (surprise_row df e).surprise = surprise_of e.2 ∧
      (surprise_row df e).surprise_lag = (if rank_min df e.2 = 1 then FVal.fin 0 else
        match prev_in_series (List.insertionSort entryLe (indexRows 0 df)) e with
        | some p => surprise_of p.2
        | none => FVal.nan) :=
  ⟨rfl, rfl, rfl⟩

/-- `rank(method="min") == 1` picks out exactly the rows whose fiscal year is
minimal in their analyst-firm series. -/
lemma rank_min_eq_one_iff {df : List CovRow} {r : CovRow} :
    rank_min df r = 1 ↔ ∀ s ∈ df, sameSeries s r → r.fiscal_year ≤ s.fiscal_year := by
  unfold rank_min
  constructor
  · intro h s hs hss
    by_contra hlt
    push_neg at hlt
    have hmem : s ∈ (df.filter (fun s => sameSeries s r)).filter
        (fun s => s.fiscal_year < r.fiscal_year) := by
      refine List.mem_filter.mpr ⟨List.mem_filter.mpr ⟨hs, ?_⟩, ?_⟩
      · simpa using hss
      · simpa using hlt
    have hlen : 0 < ((df.filter (fun s => sameSeries s r)).filter
        (fun s => s.fiscal_year < r.fiscal_year)).length := List.length_pos.mpr
      (List.ne_nil_of_mem hmem)
    omega
  · intro hmin
    have hnil : (df.filter (fun s => sameSeries s r)).filter
        (fun s => s.fiscal_year < r.fiscal_year) = [] := by
      rw [List.filter_eq_nil_iff]
      intro s hs hlt
      rcases List.mem_filter.mp hs with ⟨hsd, hss⟩
      simp only [decide_eq_true_eq] at hss hlt
      exact absurd hlt (not_lt.mpr (hmin s hsd hss))
    rw [hnil]
    rfl

/-- The lists over which the brokerage year-thresholds are computed are the
same whether read off the intermediate sized table or the final `brokerage`
output: the second pass only rewrites `top_10`. -/
lemma brokerage_year_sizes (df : List ExperRow) (y : Int) :
    ((brokerage df).filter (fun s => s.fiscal_year = y)).map (fun s => (s.broker_size : ℚ)) =
      (((df.map (fun r => ({ toExperRow := r, broker_size := broker_size_of df r, top_10 := 0 }
        : BrokRow))).filter (fun s => s.fiscal_year = y)).map (fun s => (s.broker_size : ℚ))) := by
  unfold brokerage
  rw [List.filter_map, List.map_map]
  rfl

/-- In the sort order of the surprise stage, an entry below another entry of
the same analyst-firm series has a fiscal year at most the other's. -/
lemma entryLe_year {a b : Nat × CovRow} (h : entryLe a b)
    (han : a.2.analyst = b.2.analyst) (hti : a.2.ibes_ticker_pk = b.2.ibes_ticker_pk) :
    a.2.fiscal_year ≤ b.2.fiscal_year := by
  unfold entryLe at h
  omega

/-! ## Claim theorems -/

set_option maxRecDepth 1000000

/-- C5: every row output by the Cleaning & Filtering stage comes from an
input row whose `value` and `actual` were non-null (and carries those
values), has a forecast horizon `fpedats - anndats` strictly between 30 and
365 days, and a fiscal year (the year of `fpedats`) different from 2023; no
violating row survives because the statement covers every output row. -/
theorem c5_cleaning_filters (df : List RawRow) :
    ∀ r ∈ preprocessing_ibes df,
      (∃ r0 ∈ df, r0.value = some r.estimated_eps ∧ r0.actual = some r.actual_eps ∧
        r.fiscal_period_ending = r0.fpedats ∧ r.announce_date = r0.anndats) ∧
      30 < r.forecast_horizon ∧ r.forecast_horizon < 365 ∧
      r.forecast_horizon = r.fiscal_period_ending.toDays - r.announce_date.toDays ∧
      r.fiscal_year = r.fiscal_period_ending.y ∧
      r.fiscal_year ≠ 2023 := by
  intro r hr
  unfold preprocessing_ibes at hr
  rcases List.mem_filterMap.mp hr with ⟨r0, hr0, hbuild⟩
  rcases List.mem_filter.mp hr0 with ⟨hr1, hyear⟩
  rcases List.mem_filter.mp hr1 with ⟨hr2, hhor⟩
  rcases List.mem_filter.mp hr2 with ⟨hr3, hvsome⟩
  rcases List.mem_filter.mp hr3 with ⟨hr4, hasome⟩
  rcases Option.isSome_iff_exists.mp (by simpa using hvsome) with ⟨v, hv⟩
  rcases Option.isSome_iff_exists.mp (by simpa using hasome) with ⟨a, ha⟩
  rw [hv, ha] at hbuild
  simp only [Option.some.injEq] at hbuild
  subst hbuild
  simp only [decide_eq_true_eq] at hhor hyear
  refine ⟨⟨r0, hr4, by rw [hv], by rw [ha], rfl, rfl⟩, hhor.1, hhor.2, rfl, rfl, hyear⟩

/-- C3 (counterexample): on the spec's end-to-end example the collapsed row
of analyst 1 has `pmafe = -2/5 = -0.4`, not the claimed `-0.5`: at the PMAFE
stage (which runs before the collapse) the firm-period benchmark is the mean
of the three per-row errors (0.1, 0.1, 0.3) = 1/6, not the claimed mean 0.2
of the two per-analyst errors (0.1, 0.3). -/
theorem c3_example_counterexample :
    ((collapse_processed_df (calculate_pmafe (preprocessing_ibes rawExample))).filter
      (fun r => r.analyst = 1)).map (fun r => r.pmafe) = [FVal.fin (-2/5)] ∧
    FVal.fin (-2/5) ≠ FVal.fin (-1/2) :=
  of_decide_eq_true (by with_unfolding_all rfl)

/-- C3 (amended): on the spec's end-to-end example the pipeline keeps the
40-day row at the collapse, attaches `mean_estimate_ijt = 1.1`, gives the
kept row `afe_analyst_i = 0.1`, and the kept row's `pmafe` is `-0.4` (the
benchmark being the mean 1/6 of the per-row errors). -/
theorem c3_example_amended :
    ((collapse_processed_df (calculate_pmafe (preprocessing_ibes rawExample))).filter
      (fun r => r.analyst = 1)).map
        (fun r => (r.forecast_horizon, r.mean_estimate_ijt, r.afe_analyst_i, r.pmafe)) =
      [(40, 11/10, 1/10, FVal.fin (-2/5))] :=
  of_decide_eq_true (by with_unfolding_all rfl)

/-- C4 (counterexample): a legal zero-estimate forecast survives to the final
panel with `surprise = +infinity`: the surprise division by the zero mean
estimate produces an infinity, and the `dropna` drop-row policy removes only
NaN, so a non-finite value remains in the final output. -/
theorem c4_infinity_survives_counterexample :
    finalZeroEstimate.map (fun r => r.surprise) = [FVal.pinf] ∧
    ¬(∀ r ∈ finalZeroEstimate, ∃ q : ℚ, r.surprise = FVal.fin q) := by
  have hmap : finalZeroEstimate.map (fun r => r.surprise) = [FVal.pinf] :=
    of_decide_eq_true (by with_unfolding_all rfl)
  refine ⟨hmap, ?_⟩
  intro hall
  cases hfz : finalZeroEstimate with
  | nil => rw [hfz] at hmap; simp at hmap
  | cons r t =>
    have hr : r ∈ finalZeroEstimate := by rw [hfz]; simp
    rcases hall r hr with ⟨q, hq⟩
    have hpinf : r.surprise = FVal.pinf := by
      rw [hfz] at hmap
      simp only [List.map_cons, List.cons.injEq] at hmap
      exact hmap.1
    rw [hpinf] at hq
    exact FVal.noConfusion hq

/-- C4 (amended): the zero-denominator divisions never abort and the NaN
sentinel rows are indeed all dropped: every surviving `pmafe` is a finite
rational (a zero benchmark forces the NaN case, which `dropna` removes), and
no row of the final panel carries NaN in `surprise` or `surprise_lag`; the
infinity sentinels, however, are not removed (see the counterexample). -/
theorem c4_nonfinite_handling :
    (∀ (df : List CleanRow), ∀ r ∈ calculate_pmafe df, ∃ q : ℚ, r.pmafe = FVal.fin q) ∧
    (∀ (df : List CovRow), ∀ r ∈ surprise df,
      r.surprise ≠ FVal.nan ∧ r.surprise_lag ≠ FVal.nan) := by
  constructor
  · intro df r hr
    rcases mem_calculate_pmafe hr with ⟨_, _, _, hpm, _⟩
    have hne := afe_jt_mean_ne_zero_of_kept hr
    refine ⟨(afe_ijt_mean df r.toCleanRow - afe_jt_mean df r.toCleanRow) /
      afe_jt_mean df r.toCleanRow, ?_⟩
    rw [hpm]
    unfold fdiv
    rw [if_neg hne]
  · intro df r hr
    rcases mem_surprise hr with ⟨e, _, _, hs, hl⟩
    constructor
    · intro h; rw [h] at hs; simp [FVal.isna] at hs
    · intro h; rw [h] at hl; simp [FVal.isna] at hl

/-- C2: for every row surviving the PMAFE stage, the analyst mean error is
the mean of the per-row absolute errors over the row's (firm, analyst,
period) group, the firm benchmark is the mean of the per-row (not
pre-averaged) absolute errors over the row's (firm, period) group, the
benchmark is non-zero, and `pmafe` is exactly their relative difference. -/
theorem c2_pmafe_formula (df : List CleanRow) :
    ∀ r ∈ calculate_pmafe df,
      r.afe_analyst_ijt_mean =
        ((df.filter (fun s => s.ibes_ticker_pk = r.ibes_ticker_pk ∧ s.analyst = r.analyst ∧
          s.fiscal_period_ending = r.fiscal_period_ending)).map
            (fun s => |s.estimated_eps - s.actual_eps|)).sum /
        ((df.filter (fun s => s.ibes_ticker_pk = r.ibes_ticker_pk ∧ s.analyst = r.analyst ∧
          s.fiscal_period_ending = r.fiscal_period_ending)).length : ℚ) ∧
      r.afe_firm_jt_mean =
        ((df.filter (fun s => s.ibes_ticker_pk = r.ibes_ticker_pk ∧
          s.fiscal_period_ending = r.fiscal_period_ending)).map
            (fun s => |s.estimated_eps - s.actual_eps|)).sum /
        ((df.filter (fun s => s.ibes_ticker_pk = r.ibes_ticker_pk ∧
          s.fiscal_period_ending = r.fiscal_period_ending)).length : ℚ) ∧
      r.afe_firm_jt_mean ≠ 0 ∧
      r.pmafe = FVal.fin ((r.afe_analyst_ijt_mean - r.afe_firm_jt_mean) /
        r.afe_firm_jt_mean) := by
  intro r hr
  rcases mem_calculate_pmafe hr with ⟨hmem, hijt, hjt, hpm, _⟩
  have hne := afe_jt_mean_ne_zero_of_kept hr
  refine ⟨?_, ?_, ?_, ?_⟩
  · rw [hijt]
    unfold afe_ijt_mean listMeanQ
    rw [List.length_map]
    rfl
  · rw [hjt]
    unfold afe_jt_mean listMeanQ
    rw [List.length_map]
    rfl
  · rw [hjt]; exact hne
  · rw [hpm, hijt, hjt]
    unfold fdiv
    rw [if_neg hne]

/-- C6: every collapsed row carries `mean_estimate_ijt` equal to the mean of
`estimated_eps` over ALL pre-collapse rows of its (analyst, firm,
fiscal_year) group, is itself a pre-collapse row whose horizon is minimal in
its (firm, analyst, fiscal_period_ending) group, and is the FIRST row of the
table attaining that minimum within its group — the deterministic
`idxmin` tie-break. -/
theorem c6_collapse_selection (df : List PmafeRow) :
    ∀ r ∈ collapse_processed_df df,
      r.mean_estimate_ijt = listMeanQ ((df.filter (fun s =>
        s.analyst = r.analyst ∧ s.ibes_ticker_pk = r.ibes_ticker_pk ∧
          s.fiscal_year = r.fiscal_year)).map (fun s => s.estimated_eps)) ∧
      r.toPmafeRow ∈ df ∧
      (∀ s ∈ df, s.ibes_ticker_pk = r.ibes_ticker_pk → s.analyst = r.analyst →
        s.fiscal_period_ending = r.fiscal_period_ending →
          r.forecast_horizon ≤ s.forecast_horizon) ∧
      (df.filter (fun s => s.ibes_ticker_pk = r.ibes_ticker_pk ∧ s.analyst = r.analyst ∧
        s.fiscal_period_ending = r.fiscal_period_ending)).find?
          (fun s => s.forecast_horizon = r.forecast_horizon) = some r.toPmafeRow := by
  intro r hr
  unfold collapse_processed_df at hr
  rcases List.mem_filterMap.mp hr with ⟨k, hk, hfk⟩
  cases hidx : idxmin_horizon (df.filter (fun s => grain_key s = k)) with
  | none => rw [hidx] at hfk; simp at hfk
  | some m =>
    rw [hidx] at hfk
    simp only [Option.map_some', Option.some.injEq] at hfk
    subst hfk
    rcases idxmin_horizon_spec hidx with ⟨hmem, hmin, hfind⟩
    rcases List.mem_filter.mp hmem with ⟨hmd, hmk⟩
    simp only [decide_eq_true_eq] at hmk
    have hgrp : df.filter (fun s => grain_key s = k) =
        df.filter (fun s => s.ibes_ticker_pk = m.ibes_ticker_pk ∧ s.analyst = m.analyst ∧
          s.fiscal_period_ending = m.fiscal_period_ending) := by
      apply List.filter_congr
      intro x _
      apply decide_eq_decide.mpr
      rw [← hmk]
      unfold grain_key
      constructor
      · intro h
        exact ⟨congrArg (fun p => p.1) h,
          congrArg (fun p => p.2.1) h, congrArg (fun p => p.2.2) h⟩
      · intro ⟨h1, h2, h3⟩
        rw [h1, h2, h3]
    refine ⟨rfl, hmd, ?_, ?_⟩
    · intro s hs h1 h2 h3
      refine hmin s ?_
      rw [hgrp]
      refine List.mem_filter.mpr ⟨hs, ?_⟩
      simp only [decide_eq_true_eq]
      exact ⟨h1, h2, h3⟩
    · rw [← hgrp]
      exact hfind

/-- C8: in the brokerage enrichment, `broker_size` is the number of distinct
analysts of the row's (fiscal_year, estimator) group, and `top_10` is 1
exactly when `broker_size` strictly exceeds the interpolated 90th percentile
of the `broker_size` column computed within the row's own fiscal year. -/
theorem c8_brokerage_threshold (df : List ExperRow) :
    ∀ r ∈ brokerage df,
      r.broker_size = ((df.filter (fun s =>
        s.fiscal_year = r.fiscal_year ∧ s.estimator = r.estimator)).map
          (fun s => s.analyst)).toFinset.card ∧
      r.top_10 = (if (r.broker_size : ℚ) >
          quantile90 (((brokerage df).filter (fun s => s.fiscal_year = r.fiscal_year)).map
            (fun s => (s.broker_size : ℚ)))
        then 1 else 0) := by
  intro r hr
  unfold brokerage at hr
  rcases List.mem_map.mp hr with ⟨rs, hrs, hfr⟩
  rcases List.mem_map.mp hrs with ⟨r0, _, hf1⟩
  subst hf1
  subst hfr
  constructor
  · rw [List.card_toFinset]
    rfl
  · rw [brokerage_year_sizes]

/-- C9: every row retained by the experience enrichment carries the
experience value of a matching record of the experience table — rows with no
match are dropped — and the derived log column is 0 at experience 0 and the
natural logarithm elsewhere. -/
theorem c9_experience_join_and_log (expT : List ExperienceRecord) (df : List CollapsedRow) :
    ∀ r ∈ analyst_experience expT df,
      (∃ e ∈ expT, e.analyst = r.analyst ∧ e.year = r.forecast_announce_year ∧
        e.experience = r.general_analyst_experience) ∧
      (r.general_analyst_experience = 0 →
        general_analyst_experience_log r.general_analyst_experience = 0) ∧
      (r.general_analyst_experience ≠ 0 →
        general_analyst_experience_log r.general_analyst_experience =
          Real.log (r.general_analyst_experience : ℝ)) := by
  intro r hr
  unfold analyst_experience at hr
  rcases List.mem_flatMap.mp hr with ⟨r0, hr0, hmem⟩
  rcases List.mem_map.mp hmem with ⟨e, he, hfr⟩
  subst hfr
  rcases List.mem_filter.mp he with ⟨heT, hkey⟩
  simp only [decide_eq_true_eq] at hkey
  refine ⟨⟨e, heT, hkey.1, hkey.2, rfl⟩, ?_, ?_⟩
  · intro h0
    unfold general_analyst_experience_log
    rw [if_pos h0]
  · intro h0
    unfold general_analyst_experience_log
    rw [if_neg h0]

/-- C10: every final-panel row whose fiscal year is minimal within its
analyst-firm series (over the whole surprise-stage input) has
`surprise_lag = 0`; in particular, when several rows tie at the minimal
fiscal year, the `min`-method rank gives every one of them rank 1 and all of
them receive the zero lag. -/
theorem c10_tied_first_rows_lag_zero (df : List CovRow) :
    ∀ r ∈ surprise df,
      (∀ s ∈ df, s.analyst = r.analyst → s.ibes_ticker_pk = r.ibes_ticker_pk →
        r.fiscal_year ≤ s.fiscal_year) →
      r.surprise_lag = FVal.fin 0 := by
  intro r hr hmin
  rcases mem_surprise hr with ⟨e, _, hre, _, _⟩
  rcases surprise_row_fields df e with ⟨hcov, _, hlag⟩
  rw [← hre] at hcov hlag
  have hmin' : ∀ s ∈ df, s.analyst = e.2.analyst → s.ibes_ticker_pk = e.2.ibes_ticker_pk →
      e.2.fiscal_year ≤ s.fiscal_year := by
    rw [← hcov]
    exact hmin
  have hrank : rank_min df e.2 = 1 := by
    rw [rank_min_eq_one_iff]
    intro s hs hss
    exact hmin' s hs hss.1 hss.2
  rw [hlag, if_pos hrank]

/-- C1: after the Collapse stage the table's
(ibes_ticker_pk, analyst, fiscal_period_ending) keys are pairwise distinct
and cover exactly the grain keys of its input, and — given that the
experience table has at most one record per (analyst, year) and the linking
table at most one record per ticker — every later stage
(analyst_experience, brokerage, sic_codes, coverage, surprise) preserves
key-uniqueness. -/
theorem c1_grain_uniqueness (df : List PmafeRow) (expT : List ExperienceRecord)
    (linkT : List SicLinkingRecord)
    (hexp : expT.Pairwise (fun e1 e2 => ¬(e1.analyst = e2.analyst ∧ e1.year = e2.year)))
    (hlink : linkT.Pairwise (fun l1 l2 => l1.ticker ≠ l2.ticker)) :
    ((collapse_processed_df df).map gkeyC).Nodup ∧
    (∀ k, k ∈ (collapse_processed_df df).map gkeyC ↔ k ∈ df.map grain_key) ∧
    ((analyst_experience expT (collapse_processed_df df)).map gkeyE).Nodup ∧
    ((brokerage (analyst_experience expT (collapse_processed_df df))).map gkeyB).Nodup ∧
    ((sic_codes linkT (brokerage (analyst_experience expT
      (collapse_processed_df df)))).map gkeyS).Nodup ∧
    ((coverage (sic_codes linkT (brokerage (analyst_experience expT
      (collapse_processed_df df))))).map gkeyV).Nodup ∧
    ((surprise (coverage (sic_codes linkT (brokerage (analyst_experience expT
      (collapse_processed_df df)))))).map gkeyU).Nodup := by
  have hkeyattach : ∀ (k : Nat × Nat × Date) (b : CollapsedRow),
      ((idxmin_horizon (df.filter (fun s => grain_key s = k))).map
        (fun m => ({ toPmafeRow := m, mean_estimate_ijt := mean_estimate_ijt_of df m }
          : CollapsedRow))) = some b → gkeyC b = k := by
    intro k b hb
    cases hidx : idxmin_horizon (df.filter (fun s => grain_key s = k)) with
    | none => rw [hidx] at hb; simp at hb
    | some m =>
      rw [hidx] at hb
      simp only [Option.map_some', Option.some.injEq] at hb
      subst hb
      rcases idxmin_horizon_spec hidx with ⟨hmem, _, _⟩
      rcases List.mem_filter.mp hmem with ⟨_, hmk⟩
      simp only [decide_eq_true_eq] at hmk
      exact hmk
  have h1 : ((collapse_processed_df df).map gkeyC).Nodup := by
    unfold collapse_processed_df
    exact nodup_map_filterMap_keys _ _ _ hkeyattach (nodup_firstDedup _)
  have h2 : ∀ k, k ∈ (collapse_processed_df df).map gkeyC ↔ k ∈ df.map grain_key := by
    intro k
    constructor
    · intro hk
      rcases List.mem_map.mp hk with ⟨b, hb, rfl⟩
      unfold collapse_processed_df at hb
      rcases List.mem_filterMap.mp hb with ⟨k', _, hfk'⟩
      have hbk : gkeyC b = k' := hkeyattach k' b hfk'
      cases hidx : idxmin_horizon (df.filter (fun s => grain_key s = k')) with
      | none => rw [hidx] at hfk'; simp at hfk'
      | some m =>
        rw [hidx] at hfk'
        simp only [Option.map_some', Option.some.injEq] at hfk'
        subst hfk'
        rcases idxmin_horizon_spec hidx with ⟨hmem, _, _⟩
        rcases List.mem_filter.mp hmem with ⟨hmd, _⟩
        exact List.mem_map.mpr ⟨m, hmd, rfl⟩
    · intro hk
      rcases List.mem_map.mp hk with ⟨s, hs, rfl⟩
      have hkfd : grain_key s ∈ firstDedup (df.map grain_key) :=
        mem_firstDedup.mpr (List.mem_map.mpr ⟨s, hs, rfl⟩)
      have hsg : s ∈ df.filter (fun x => grain_key x = grain_key s) :=
        List.mem_filter.mpr ⟨hs, by simp⟩
      cases hidx : idxmin_horizon (df.filter (fun x => grain_key x = grain_key s)) with
      | none =>
        exact absurd (idxmin_horizon_eq_none.mp hidx) (List.ne_nil_of_mem hsg)
      | some m =>
        refine List.mem_map.mpr
          ⟨({ toPmafeRow := m, mean_estimate_ijt := mean_estimate_ijt_of df m }
            : CollapsedRow), ?_, ?_⟩
        · unfold collapse_processed_df
          refine List.mem_filterMap.mpr ⟨grain_key s, hkfd, ?_⟩
          rw [hidx]
          rfl
        · exact hkeyattach _ _ (by rw [hidx]; rfl)
  have h3 : ((analyst_experience expT (collapse_processed_df df)).map gkeyE).Nodup := by
    unfold analyst_experience
    refine nodup_map_flatMap _ _ gkeyC gkeyE ?_ ?_ h1
    · intro a b hb
      rcases List.mem_map.mp hb with ⟨e, _, hbe⟩
      rw [← hbe]
      rfl
    · intro a
      rw [List.length_map]
      apply length_filter_le_one
      refine hexp.imp ?_
      intro e1 e2 h12 hcontra
      rcases hcontra with ⟨hp1, hp2⟩
      simp only [decide_eq_true_eq] at hp1 hp2
      exact h12 ⟨hp1.1.trans hp2.1.symm, hp1.2.trans hp2.2.symm⟩
  have h4 : ((brokerage (analyst_experience expT (collapse_processed_df df))).map
      gkeyB).Nodup := by
    rw [brokerage_map_gkey]
    exact h3
  have h5 : ((sic_codes linkT (brokerage (analyst_experience expT
      (collapse_processed_df df)))).map gkeyS).Nodup := by
    unfold sic_codes
    refine nodup_map_flatMap _ _ gkeyB gkeyS ?_ ?_ h4
    · intro a b hb
      rcases List.mem_map.mp hb with ⟨e, _, hbe⟩
      rw [← hbe]
      rfl
    · intro a
      rw [List.length_map]
      apply length_filter_le_one
      refine hlink.imp ?_
      intro l1 l2 h12 hcontra
      rcases hcontra with ⟨hp1, hp2⟩
      simp only [decide_eq_true_eq] at hp1 hp2
      exact h12 (hp1.trans hp2.symm)
  have h6 : ((coverage (sic_codes linkT (brokerage (analyst_experience expT
      (collapse_processed_df df))))).map gkeyV).Nodup := by
    rw [coverage_map_gkey]
    exact h5
  have h7 : ((surprise (coverage (sic_codes linkT (brokerage (analyst_experience expT
      (collapse_processed_df df)))))).map gkeyU).Nodup := by
    unfold surprise
    have hrows : ∀ (dv : List CovRow),
        (((indexRows 0 dv).map (surprise_row dv)).map gkeyU) = dv.map gkeyV := by
      intro dv
      rw [List.map_map]
      have hsnd : ((indexRows 0 dv).map Prod.snd).map gkeyV = dv.map gkeyV := by
        rw [indexRows_map_snd]
      rw [← hsnd, List.map_map]
      rfl
    apply List.Nodup.sublist
      (List.Sublist.map gkeyU ((List.filter_sublist _).trans (List.filter_sublist _)))
    rw [hrows]
    exact h6
  exact ⟨h1, h2, h3, h4, h5, h6, h7⟩

/-- C7: for every final-panel row, `surprise` is the relative deviation of
the realized EPS from the analyst's mean estimate; the first observation of
an analyst-firm series (minimal fiscal year over the stage input) has
`surprise_lag = 0` exactly, not null; and — under the series presupposition
that no analyst-firm pair has two rows in the same fiscal year — every
non-first observation's `surprise_lag` equals the `surprise` of the series
row with the largest smaller fiscal year: the immediately preceding row in
sort order, regardless of calendar-year gaps. -/
theorem c7_surprise_and_lag (df : List CovRow)
    (hdist : df.Pairwise (fun a b => a.analyst = b.analyst →
      a.ibes_ticker_pk = b.ibes_ticker_pk → a.fiscal_year ≠ b.fiscal_year)) :
    ∀ r ∈ surprise df,
      r.surprise = fdiv (r.actual_eps - r.mean_estimate_ijt) r.mean_estimate_ijt ∧
      ((∀ s ∈ df, s.analyst = r.analyst → s.ibes_ticker_pk = r.ibes_ticker_pk →
        r.fiscal_year ≤ s.fiscal_year) → r.surprise_lag = FVal.fin 0) ∧
      (∀ s0 ∈ df, s0.analyst = r.analyst → s0.ibes_ticker_pk = r.ibes_ticker_pk →
        s0.fiscal_year < r.fiscal_year →
        ∃ p ∈ df, p.analyst = r.analyst ∧ p.ibes_ticker_pk = r.ibes_ticker_pk ∧
          p.fiscal_year < r.fiscal_year ∧
          (∀ s ∈ df, s.analyst = r.analyst → s.ibes_ticker_pk = r.ibes_ticker_pk →
            s.fiscal_year < r.fiscal_year → s.fiscal_year ≤ p.fiscal_year) ∧
          r.surprise_lag = fdiv (p.actual_eps - p.mean_estimate_ijt)
            p.mean_estimate_ijt) := by
  intro r hr
  rcases mem_surprise hr with ⟨e, he, hre, _, _⟩
  rcases surprise_row_fields df e with ⟨hcov, hs, hlag⟩
  rw [← hre] at hcov hs hlag
  refine ⟨?_, ?_, ?_⟩
  · rw [hs, ← hcov]
    rfl
  · intro hmin
    have hmin' : ∀ s ∈ df, s.analyst = e.2.analyst → s.ibes_ticker_pk = e.2.ibes_ticker_pk →
        e.2.fiscal_year ≤ s.fiscal_year := by
      rw [← hcov]
      exact hmin
    have hrank : rank_min df e.2 = 1 := by
      rw [rank_min_eq_one_iff]
      intro s hsd hss
      exact hmin' s hsd hss.1 hss.2
    rw [hlag, if_pos hrank]
  · intro s0 hs0 han hti hyr
    have han' : s0.analyst = e.2.analyst := by rw [← hcov]; exact han
    have hti' : s0.ibes_ticker_pk = e.2.ibes_ticker_pk := by rw [← hcov]; exact hti
    have hyr' : s0.fiscal_year < e.2.fiscal_year := by rw [← hcov]; exact hyr
    have hrank : rank_min df e.2 ≠ 1 := by
      intro h1
      have := (rank_min_eq_one_iff.mp h1) s0 hs0 ⟨han', hti'⟩
      omega
    have hperm : (List.insertionSort entryLe (indexRows 0 df)).Perm (indexRows 0 df) :=
      List.perm_insertionSort entryLe (indexRows 0 df)
    have hsort : (List.insertionSort entryLe (indexRows 0 df)).Sorted entryLe :=
      List.sorted_insertionSort entryLe (indexRows 0 df)
    have hpw : (List.insertionSort entryLe (indexRows 0 df)).Pairwise
        (fun a b => a.2.analyst = b.2.analyst → a.2.ibes_ticker_pk = b.2.ibes_ticker_pk →
          a.2.fiscal_year ≠ b.2.fiscal_year) :=
      (hperm.pairwise_iff (fun {x y} hab h1 h2 h3 => hab h1.symm h2.symm h3.symm)).mpr
        (indexRows_pairwise 0 hdist)
    have hes : e ∈ List.insertionSort entryLe (indexRows 0 df) := hperm.mem_iff.mpr he
    have hfstnd : ((List.insertionSort entryLe (indexRows 0 df)).map Prod.fst).Nodup := by
      have h1 : ((indexRows 0 df).map Prod.fst).Nodup := by
        rw [indexRows_map_fst]
        exact List.nodup_range' _ _
      exact (hperm.map Prod.fst).nodup_iff.mpr h1
    have hpsplit : ∀ x ∈ List.insertionSort entryLe (indexRows 0 df),
        (decide (x.1 ≠ e.1) = false ↔ x = e) := by
      intro x hx
      constructor
      · intro hf
        have hxe : x.1 = e.1 := by simpa using hf
        exact List.inj_on_of_nodup_map hfstnd hx hes hxe
      · intro hxe
        subst hxe
        simp
    rcases takeWhile_split_by (fun x => x.1 ≠ e.1) hes hpsplit with ⟨u, hu⟩
    set T := (List.insertionSort entryLe (indexRows 0 df)).takeWhile (fun x => x.1 ≠ e.1)
      with hT
    rw [hu] at hsort hpw
    rcases List.pairwise_append.mp hsort with ⟨hsT, hsEU, hTcross⟩
    rcases List.pairwise_append.mp hpw with ⟨_, _, hQcross⟩
    have hue : ∀ y ∈ u, entryLe e y := (List.pairwise_cons.mp hsEU).1
    have hte : ∀ x ∈ T, entryLe x e := fun x hx => hTcross x hx e (by simp)
    have hQte : ∀ x ∈ T, x.2.analyst = e.2.analyst →
        x.2.ibes_ticker_pk = e.2.ibes_ticker_pk → x.2.fiscal_year ≠ e.2.fiscal_year :=
      fun x hx => hQcross x hx e (by simp)
    have hAyear : ∀ x ∈ T, sameSeries x.2 e.2 → x.2.fiscal_year < e.2.fiscal_year := by
      intro x hx hss
      have h1 := entryLe_year (hte x hx) hss.1 hss.2
      have h2 := hQte x hx hss.1 hss.2
      omega
    have hB : ∀ x ∈ indexRows 0 df, sameSeries x.2 e.2 →
        x.2.fiscal_year < e.2.fiscal_year → x ∈ T := by
      intro x hx hss hxy
      have hxs : x ∈ T ++ e :: u := by
        rw [← hu]
        exact hperm.mem_iff.mpr hx
      rcases List.mem_append.mp hxs with hxT | hxEU
      · exact hxT
      · rcases List.mem_cons.mp hxEU with rfl | hxu
        · omega
        · have := entryLe_year (hue x hxu) hss.1.symm hss.2.symm
          omega
    have hs0m : s0 ∈ (indexRows 0 df).map Prod.snd := by
      rw [indexRows_map_snd]
      exact hs0
    rcases List.mem_map.mp hs0m with ⟨x0, hx0, hx0s⟩
    have hx0T : x0 ∈ T :=
      hB x0 hx0 (by rw [hx0s]; exact ⟨han', hti'⟩) (by rw [hx0s]; exact hyr')
    have hx0f : x0 ∈ T.filter (fun x => sameSeries x.2 e.2) := by
      refine List.mem_filter.mpr ⟨hx0T, ?_⟩
      simp only [decide_eq_true_eq]
      rw [hx0s]
      exact ⟨han', hti'⟩
    rcases lastOf_isSome (List.ne_nil_of_mem hx0f) with ⟨p, hp⟩
    have hpf : p ∈ T.filter (fun x => sameSeries x.2 e.2) := lastOf_mem hp
    rcases List.mem_filter.mp hpf with ⟨hpT, hpss'⟩
    have hpss : sameSeries p.2 e.2 := by simpa using hpss'
    have hpyear : p.2.fiscal_year < e.2.fiscal_year := hAyear p hpT hpss
    have hpdf : p.2 ∈ df := by
      have hpS : p ∈ T ++ e :: u := List.mem_append.mpr (Or.inl hpT)
      rw [← hu] at hpS
      exact mem_indexRows (hperm.mem_iff.mp hpS)
    have hmax : ∀ s ∈ df, s.analyst = e.2.analyst → s.ibes_ticker_pk = e.2.ibes_ticker_pk →
        s.fiscal_year < e.2.fiscal_year → s.fiscal_year ≤ p.2.fiscal_year := by
      intro s hsd hsan hsti hsyr
      have hsm : s ∈ (indexRows 0 df).map Prod.snd := by
        rw [indexRows_map_snd]
        exact hsd
      rcases List.mem_map.mp hsm with ⟨xs, hxs, hxss⟩
      have hxsT : xs ∈ T :=
        hB xs hxs (by rw [hxss]; exact ⟨hsan, hsti⟩) (by rw [hxss]; exact hsyr)
      have hxsf : xs ∈ T.filter (fun x => sameSeries x.2 e.2) := by
        refine List.mem_filter.mpr ⟨hxsT, ?_⟩
        simp only [decide_eq_true_eq]
        rw [hxss]
        exact ⟨hsan, hsti⟩
      have hfsorted : (T.filter (fun x => sameSeries x.2 e.2)).Pairwise entryLe :=
        List.Pairwise.filter _ hsT
      rcases lastOf_pairwise hfsorted hp xs hxsf with heq | hle
      · rw [← heq, hxss]
      · have h1 : xs.2.analyst = p.2.analyst := by
          rw [hxss, hsan]
          exact hpss.1.symm
        have h2 : xs.2.ibes_ticker_pk = p.2.ibes_ticker_pk := by
          rw [hxss, hsti]
          exact hpss.2.symm
        have h3 := entryLe_year hle h1 h2
        rw [hxss] at h3
        exact h3
    have hprev : prev_in_series (List.insertionSort entryLe (indexRows 0 df)) e = some p := by
      unfold prev_in_series
      rw [← hT]
      exact hp
    have hlagval : r.surprise_lag = surprise_of p.2 := by
      rw [hlag, if_neg hrank, hprev]
    refine ⟨p.2, hpdf, ?_, ?_, ?_, ?_, ?_⟩
    · rw [hcov]
      exact hpss.1
    · rw [hcov]
      exact hpss.2
    · rw [hcov]
      exact hpyear
    · rw [hcov]
      exact hmax
    · rw [hlagval]
      rfl

/-! ## Witnesses -/

/-- Witness for C1 at a concrete three-row PMAFE table and concrete
auxiliary tables. -/
theorem c1_grain_uniqueness_witness :
    expTableW.Pairwise (fun e1 e2 => ¬(e1.analyst = e2.analyst ∧ e1.year = e2.year)) ∧
    linkTableZ.Pairwise (fun l1 l2 => l1.ticker ≠ l2.ticker) ∧
    ((surprise (coverage (sic_codes linkTableZ (brokerage (analyst_experience expTableW
      (collapse_processed_df pmafeExampleTable)))))).map gkeyU).Nodup :=
  ⟨by decide, by decide,
    (c1_grain_uniqueness pmafeExampleTable expTableW linkTableZ (by decide)
      (by decide)).2.2.2.2.2.2⟩

/-- Witness for C2 at the first row the PMAFE stage outputs on a concrete
three-row cleaned table. -/
theorem c2_pmafe_formula_witness :
    rowC2 ∈ calculate_pmafe cleanExample ∧
    rowC2.afe_firm_jt_mean ≠ 0 ∧
    rowC2.pmafe = FVal.fin ((rowC2.afe_analyst_ijt_mean - rowC2.afe_firm_jt_mean) /
      rowC2.afe_firm_jt_mean) := by
  have hmem : rowC2 ∈ calculate_pmafe cleanExample :=
    of_decide_eq_true (by with_unfolding_all rfl)
  have h := c2_pmafe_formula cleanExample rowC2 hmem
  exact ⟨hmem, h.2.2.1, h.2.2.2⟩

/-- Witness for C4's kept part: a concretely surviving row has a finite
`pmafe`. -/
theorem c4_nonfinite_handling_witness :
    rowC4 ∈ calculate_pmafe cleanExample ∧ (∃ q : ℚ, rowC4.pmafe = FVal.fin q) := by
  have hmem : rowC4 ∈ calculate_pmafe cleanExample :=
    of_decide_eq_true (by with_unfolding_all rfl)
  exact ⟨hmem, c4_nonfinite_handling.1 cleanExample rowC4 hmem⟩

/-- Witness for C5 at the first row the cleaning stage outputs on the
concrete raw example table. -/
theorem c5_cleaning_filters_witness :
    rowC5 ∈ preprocessing_ibes rawExample ∧
    30 < rowC5.forecast_horizon ∧ rowC5.forecast_horizon < 365 ∧
    rowC5.fiscal_year ≠ 2023 := by
  have hmem : rowC5 ∈ preprocessing_ibes rawExample :=
    of_decide_eq_true (by with_unfolding_all rfl)
  have h := c5_cleaning_filters rawExample rowC5 hmem
  exact ⟨hmem, h.2.1, h.2.2.1, h.2.2.2.2.2⟩

/-- Witness for C6 at the first collapsed row of the concrete PMAFE table. -/
theorem c6_collapse_selection_witness :
    rowC6 ∈ collapse_processed_df pmafeExampleTable ∧
    rowC6.toPmafeRow ∈ pmafeExampleTable ∧
    rowC6.mean_estimate_ijt = listMeanQ ((pmafeExampleTable.filter (fun s =>
      s.analyst = rowC6.analyst ∧ s.ibes_ticker_pk = rowC6.ibes_ticker_pk ∧
        s.fiscal_year = rowC6.fiscal_year)).map (fun s => s.estimated_eps)) := by
  have hmem : rowC6 ∈ collapse_processed_df pmafeExampleTable :=
    of_decide_eq_true (by with_unfolding_all rfl)
  have h := c6_collapse_selection pmafeExampleTable rowC6 hmem
  exact ⟨hmem, h.2.1, h.1⟩

/-- Witness for C7 on the concrete two-year series: the surprise formula
holds on a concrete output row, and the concrete lag column shows the
one-period shift with a zero first lag. -/
theorem c7_surprise_and_lag_witness :
    covSeries.Pairwise (fun a b => a.analyst = b.analyst →
      a.ibes_ticker_pk = b.ibes_ticker_pk → a.fiscal_year ≠ b.fiscal_year) ∧
    rowC7 ∈ surprise covSeries ∧
    rowC7.surprise = fdiv (rowC7.actual_eps - rowC7.mean_estimate_ijt)
      rowC7.mean_estimate_ijt ∧
    (surprise covSeries).map (fun r => (r.fiscal_year, r.surprise, r.surprise_lag)) =
      [(2019, FVal.fin (-1/2), FVal.fin 0), (2020, FVal.fin (-2/3), FVal.fin (-1/2))] := by
  have hdist : covSeries.Pairwise (fun a b => a.analyst = b.analyst →
      a.ibes_ticker_pk = b.ibes_ticker_pk → a.fiscal_year ≠ b.fiscal_year) := by decide
  have hne : surprise covSeries ≠ [] := of_decide_eq_true (by with_unfolding_all rfl)
  have hmem : rowC7 ∈ surprise covSeries := headD_mem hne defaultSurRow
  exact ⟨hdist, hmem, (c7_surprise_and_lag covSeries hdist rowC7 hmem).1,
    of_decide_eq_true (by with_unfolding_all rfl)⟩

/-- Witness for C8 at the first row of the brokerage enrichment of a
concrete experience-enriched table. -/
theorem c8_brokerage_threshold_witness :
    rowC8 ∈ brokerage experExampleTable ∧
    rowC8.broker_size = ((experExampleTable.filter (fun s =>
      s.fiscal_year = rowC8.fiscal_year ∧ s.estimator = rowC8.estimator)).map
        (fun s => s.analyst)).toFinset.card := by
  have hmem : rowC8 ∈ brokerage experExampleTable :=
    of_decide_eq_true (by with_unfolding_all rfl)
  exact ⟨hmem, (c8_brokerage_threshold experExampleTable rowC8 hmem).1⟩

/-- Witness for C9 at the first row of the experience enrichment of a
concrete collapsed table. -/
theorem c9_experience_join_and_log_witness :
    rowC9 ∈ analyst_experience expTableW collapsedExampleTable ∧
    (∃ e ∈ expTableW, e.analyst = rowC9.analyst ∧ e.year = rowC9.forecast_announce_year ∧
      e.experience = rowC9.general_analyst_experience) := by
  have hmem : rowC9 ∈ analyst_experience expTableW collapsedExampleTable :=
    of_decide_eq_true (by with_unfolding_all rfl)
  exact ⟨hmem, (c9_experience_join_and_log expTableW collapsedExampleTable rowC9 hmem).1⟩

/-- Witness for C10 on the concrete tied series: a concretely minimal-year
row gets the zero lag, and the concrete lag column shows that BOTH tied rows
received it. -/
theorem c10_tied_first_rows_lag_zero_witness :
    rowC10 ∈ surprise covTied ∧
    (∀ s ∈ covTied, s.analyst = rowC10.analyst → s.ibes_ticker_pk = rowC10.ibes_ticker_pk →
      rowC10.fiscal_year ≤ s.fiscal_year) ∧
    rowC10.surprise_lag = FVal.fin 0 ∧
    (surprise covTied).map (fun r => r.surprise_lag) = [FVal.fin 0, FVal.fin 0] := by
  have hne : surprise covTied ≠ [] := of_decide_eq_true (by with_unfolding_all rfl)
  have hmem : rowC10 ∈ surprise covTied := headD_mem hne defaultSurRow
  have hmin : ∀ s ∈ covTied, s.analyst = rowC10.analyst →
      s.ibes_ticker_pk = rowC10.ibes_ticker_pk → rowC10.fiscal_year ≤ s.fiscal_year :=
    of_decide_eq_true (by with_unfolding_all rfl)
  exact ⟨hmem, hmin, c10_tied_first_rows_lag_zero covTied rowC10 hmem hmin,
    of_decide_eq_true (by with_unfolding_all rfl)⟩
